import Mathlib

/-!
Verification development for the data-forge-ts dataframe core
(`src/lib/dataframe.ts`).

The embedding translates the TypeScript source into Lean:

* JavaScript scalar values become `JSVal` (numbers restricted to integers;
  `NaN`/floats are not used by any claim); `===` becomes `strictEq`.
* A JavaScript object used as a string-keyed map becomes either an
  association list (when insertion order matters) or a function
  `String → _` (when only lookup matters).  Prototype-chain lookups are
  not modelled.
* Rows are association lists `Row`; reading a missing field gives
  `JSVal.undef`, as in JavaScript.
* A `DataFrame` is its materialised content: the `pairs` list
  (index/value pairs, positionally congruent with `values` and `index`)
  plus the column-name list.  Laziness is dropped: each operator is the
  function one full traversal of the source's lazy chain computes.
* Selector functions that the source calls with `(value, index)` are
  modelled as functions of the value only; the claims under study use
  index-independent selectors.
* Methods that throw (`first`, `last`, `expectSeries`) return `Option`,
  `none` meaning the throw.
* The iterable helpers that live outside `src` (`ordered-iterable.ts`,
  `dataframe-variable-window-iterable.ts`, `utils.ts`, `series.ts`) are
  modelled from the specification; each such definition is marked
  `Modelled from the spec:` in its doc comment.
-/

namespace DataForge

/-- JavaScript scalar values as used by the dataframe core. -/
inductive JSVal where
  | num (n : Int)
  | str (s : String)
  | boolean (b : Bool)
  | null
  | undef
deriving DecidableEq, Repr

/-- JavaScript strict equality `===` on scalar values: equal only when the
runtime types match and the payloads are equal; `null` and `undefined` are
distinct. -/
def strictEq : JSVal → JSVal → Bool
  | .num a, .num b => a == b
  | .str a, .str b => a == b
  | .boolean a, .boolean b => a == b
  | .null, .null => true
  | .undef, .undef => true
  | _, _ => false

/-- JavaScript loose equality against `undefined` (`x == undefined`):
true exactly for `null` and `undefined`. -/
def looseEqUndef : JSVal → Bool
  | .null => true
  | .undef => true
  | _ => false

/-- JavaScript property-key coercion: the string a value turns into when
used as an object key (`map[key]`). -/
def toKeyString : JSVal → String
  | .num n => toString n
  | .str s => s
  | .boolean b => if b then "true" else "false"
  | .null => "null"
  | .undef => "undefined"

/-- JavaScript `toLowerCase()` on the column-name strings.  (Defined over
the underlying character list so that it reduces definitionally; the
library's `String.toLower` is defined by position-based recursion that the
kernel cannot unfold.) -/
def lowerStr (s : String) : String := ⟨s.data.map Char.toLower⟩

/-- A row: a JavaScript object with scalar fields, as an association list. -/
def Row : Type := List (String × JSVal)

instance : DecidableEq Row := inferInstanceAs (DecidableEq (List (String × JSVal)))
instance : Repr Row := inferInstanceAs (Repr (List (String × JSVal)))

/-- Reading a field of a row (`row[columnName]`); a missing field reads as
`undefined`, as in JavaScript. -/
def getField (r : Row) (k : String) : JSVal :=
  match r with
  | [] => .undef
  | (k2, v) :: rest => if k2 == k then v else getField rest k

/-- Writing a field of a row (`modified[columnName] = v`): an existing key
is updated in place (keeping its position), a new key is appended. -/
def setField (r : Row) (k : String) (v : JSVal) : Row :=
  match r with
  | [] => [(k, v)]
  | (k2, v2) :: rest =>
      if k2 == k then (k2, v) :: rest else (k2, v2) :: setField rest k v

/-- A dataframe's materialised content: the index/value pairs and the column
names (`IDataFrameContent`, with `values`/`index` derived from `pairs`). -/
structure DataFrame (α : Type) where
  pairs : List (JSVal × α)
  columnNames : List String
deriving DecidableEq, Repr

/-- The values sequence of the content (each value positionally congruent
with its index entry). -/
def DataFrame.values (df : DataFrame α) : List α := df.pairs.map (·.2)

/-- The index sequence of the content. -/
def DataFrame.index (df : DataFrame α) : List JSVal := df.pairs.map (·.1)

/-- The fresh zero-based index that `resetIndex` and value-only content
produce (`CountIterable` zipped with the values). -/
def zipCount (xs : List α) : List (JSVal × α) :=
  xs.enum.map (fun p => (JSVal.num (p.1 : Int), p.2))

/-- `DataFrame.where`: filters rows by a predicate on the value (the source
filters `values` and `pairs` with the same predicate). -/
def DataFrame.wherePred (df : DataFrame α) (predicate : α → Bool) : DataFrame α :=
  { pairs := df.pairs.filter (fun p => predicate p.2)
    columnNames := df.columnNames }

/-- `DataFrame.select`: maps the values, keeping the index.  The source
recomputes the column names lazily from the first produced row
(`ColumnNamesIterable`); no claim under study depends on the column names
of a selected frame, so they are modelled as `[]`. -/
def DataFrame.select (df : DataFrame α) (selector : α → β) : DataFrame β :=
  { pairs := df.pairs.map (fun p => (p.1, selector p.2))
    columnNames := [] }

/-- `DataFrame.resetIndex`: drops the index; the rebuilt content zips the
values with the default zero-based count index. -/
def DataFrame.resetIndex (df : DataFrame α) : DataFrame α :=
  { pairs := zipCount df.values
    columnNames := df.columnNames }

/-- The worker of `makeDistinct`: keeps each element not seen before,
tracking the seen elements. -/
def makeDistinctAux (seen : List String) : List String → List String
  | [] => []
  | x :: xs =>
      if seen.contains x then makeDistinctAux seen xs
      else x :: makeDistinctAux (x :: seen) xs

/-- Modelled from the spec: `makeDistinct` (from the missing `utils.ts`),
a first-occurrence-wins de-duplication preserving first-seen order. -/
def makeDistinct (xs : List String) : List String := makeDistinctAux [] xs

/-- `DataFrame.concat` (binary case): concatenates the pairs of the two
frames and de-duplicates the concatenated column-name lists. -/
def DataFrame.concat (a b : DataFrame α) : DataFrame α :=
  { pairs := a.pairs ++ b.pairs
    columnNames := makeDistinct (a.columnNames ++ b.columnNames) }

/-- `DataFrame.any()` without a predicate: true when the values iterator
yields at least one item. -/
def DataFrame.any (df : DataFrame α) : Bool := !df.values.isEmpty

/-- `DataFrame.none()` without a predicate: true when the values iterator
is immediately done. -/
def DataFrame.noneValues (df : DataFrame α) : Bool := df.values.isEmpty

/-- `DataFrame.first`: returns the first value the iterator yields, or
throws (`none`) when there is none. -/
def firstImpl : List α → Option α
  | [] => none
  | v :: _ => some v

/-- `DataFrame.first` on the dataframe's values. -/
def DataFrame.first (df : DataFrame α) : Option α := firstImpl df.values

/-- `DataFrame.last`: folds over the values with `lastValue` initialised to
`null`, then throws (`none`) when the final `lastValue === null` — so the
`null` sentinel also fires when the last row itself is `null`. -/
def lastImpl (vs : List JSVal) : Option JSVal :=
  let lastValue := vs.foldl (fun _ v => v) JSVal.null
  if strictEq lastValue JSVal.null then none else some lastValue

/-- `DataFrame.last` on a dataframe of scalar values. -/
def DataFrame.last (df : DataFrame JSVal) : Option JSVal := lastImpl df.values

/-- `DataFrame.toArray`: pushes every value that is strictly
(`!==`) different from `undefined` — `null` values are kept. -/
def toArrayImpl : List JSVal → List JSVal
  | [] => []
  | v :: vs =>
      if !(strictEq v JSVal.undef) then v :: toArrayImpl vs else toArrayImpl vs

/-- `DataFrame.toArray` on a dataframe of scalar values. -/
def DataFrame.toArray (df : DataFrame JSVal) : List JSVal := toArrayImpl df.values

/-- `DataFrame.toPairs`: pushes every pair whose value is loosely
(`!=`) different from `undefined` — pairs with `null` values are dropped
as well as pairs with `undefined` values. -/
def toPairsImpl : List (JSVal × JSVal) → List (JSVal × JSVal)
  | [] => []
  | p :: ps =>
      if !(looseEqUndef p.2) then p :: toPairsImpl ps else toPairsImpl ps

/-- `DataFrame.toPairs` on a dataframe of scalar values. -/
def DataFrame.toPairs (df : DataFrame JSVal) : List (JSVal × JSVal) :=
  toPairsImpl df.pairs

/-- The coerced-to-string map key a pair's value produces under a group
selector (`groupMap[groupKey]` coerces the key to a string). -/
def keyOf (selector : α → JSVal) (p : JSVal × α) : String :=
  toKeyString (selector p.2)

/-- Appending a pair to the first group carrying the given key
(`existingGroup.push(pair)` mutates the group in place, so its position
in the discovery-ordered group list is unchanged). -/
def addToGroup (k : String) (p : JSVal × α) :
    List (String × List (JSVal × α)) → List (String × List (JSVal × α))
  | [] => []
  | g :: gs => if g.1 == k then (g.1, g.2 ++ [p]) :: gs else g :: addToGroup k p gs

/-- The single pass of `DataFrame.groupBy`: walk the pairs once, appending
each pair to the group recorded under its coerced-to-string key, or opening
a new group at the end of the discovery-ordered list. -/
def groupByAux (selector : α → JSVal) :
    List (JSVal × α) → List (String × List (JSVal × α)) → List (String × List (JSVal × α))
  | [], acc => acc
  | p :: rest, acc =>
      let k := keyOf selector p
      if (acc.map (·.1)).contains k then
        groupByAux selector rest (addToGroup k p acc)
      else
        groupByAux selector rest (acc ++ [(k, [p])])

/-- `DataFrame.groupBy` at the level of pair lists: the discovery-ordered
groups, each tagged with its coerced-to-string map key. -/
def groupByPairs (selector : α → JSVal) (ps : List (JSVal × α)) :
    List (String × List (JSVal × α)) :=
  groupByAux selector ps []

/-- `DataFrame.groupBy`: each collected group becomes a dataframe built from
the group's pairs (its column names are lazily inferred from the rows in the
source; not modelled, no claim depends on them). -/
def DataFrame.groupBy (df : DataFrame α) (selector : α → JSVal) :
    List (DataFrame α) :=
  (groupByPairs selector df.pairs).map (fun g => { pairs := g.2, columnNames := [] })

/-- First-match lookup in a string-keyed association list (a JavaScript
object lookup for keys produced by `toObject`). -/
def lookupStr (k : String) : List (String × β) → Option β
  | [] => none
  | g :: gs => if g.1 == k then some g.2 else lookupStr k gs

/-- `DataFrame.join` (inner join): builds the inner key→group map from
`inner.groupBy(innerKeySelector)` (`toObject` re-derives each map key from
the group's first member), then one outer pass emits a result per matching
(outer, inner) pair; the content carries only `values`, so the index is the
fresh zero-based count.  An empty group never occurs; its fallback key is
the group's stored key. -/
def DataFrame.join (outer : DataFrame α) (inner : DataFrame β)
    (outerKeySelector : α → JSVal) (innerKeySelector : β → JSVal)
    (resultSelector : α → β → γ) : DataFrame γ :=
  let innerMap : List (String × List (JSVal × β)) :=
    (groupByPairs innerKeySelector inner.pairs).map (fun g =>
      (match g.2 with
       | [] => g.1
       | q :: _ => toKeyString (innerKeySelector q.2), g.2))
  let output : List γ :=
    outer.values.flatMap (fun o =>
      match lookupStr (toKeyString (outerKeySelector o)) innerMap with
      | some innerGroup => innerGroup.map (fun q => resultSelector o q.2)
      | none => [])
  { pairs := zipCount output
    columnNames := [] }

/-- `DataFrame.except`: keeps each outer row for which filtering the inner
rows by strict key equality (`outerKey === innerSelector(innerValue)`)
leaves nothing (`.none()`). -/
def DataFrame.except (outer : DataFrame α) (inner : DataFrame β)
    (outerSelector : α → JSVal) (innerSelector : β → JSVal) : DataFrame α :=
  outer.wherePred (fun outerValue =>
    (inner.wherePred (fun innerValue =>
      strictEq (outerSelector outerValue) (innerSelector innerValue))).noneValues)

/-- `DataFrame.intersection`: keeps each outer row for which filtering the
inner rows by strict key equality leaves something (`.any()`). -/
def DataFrame.intersection (outer : DataFrame α) (inner : DataFrame β)
    (outerSelector : α → JSVal) (innerSelector : β → JSVal) : DataFrame α :=
  outer.wherePred (fun outerValue =>
    (inner.wherePred (fun innerValue =>
      strictEq (outerSelector outerValue) (innerSelector innerValue))).any)

/-- `DataFrame.joinOuter`: rows only in the outer (mapped with `null` as
the inner side), then the inner join, then rows only in the inner (mapped
with `null` as the outer side), concatenated and index-reset.  `null`
arguments to the result selector are modelled as `Option.none`. -/
def DataFrame.joinOuter (outer : DataFrame α) (inner : DataFrame β)
    (outerKeySelector : α → JSVal) (innerKeySelector : β → JSVal)
    (resultSelector : Option α → Option β → γ) : DataFrame γ :=
  let outerResult :=
    ((outer.except inner outerKeySelector innerKeySelector).select
      (fun o => resultSelector (some o) none)).resetIndex
  let innerResult :=
    ((inner.except outer innerKeySelector outerKeySelector).select
      (fun i => resultSelector none (some i))).resetIndex
  let intersectionResults :=
    outer.join inner outerKeySelector innerKeySelector
      (fun o i => resultSelector (some o) (some i))
  ((outerResult.concat intersectionResults).concat innerResult).resetIndex

/-- `DataFrame.joinOuterLeft`: like `joinOuter` but without the
inner-only segment. -/
def DataFrame.joinOuterLeft (outer : DataFrame α) (inner : DataFrame β)
    (outerKeySelector : α → JSVal) (innerKeySelector : β → JSVal)
    (resultSelector : Option α → Option β → γ) : DataFrame γ :=
  let outerResult :=
    ((outer.except inner outerKeySelector innerKeySelector).select
      (fun o => resultSelector (some o) none)).resetIndex
  let intersectionResults :=
    outer.join inner outerKeySelector innerKeySelector
      (fun o i => resultSelector (some o) (some i))
  (outerResult.concat intersectionResults).resetIndex

/-- `DataFrame.joinOuterRight`: like `joinOuter` but without the
outer-only segment. -/
def DataFrame.joinOuterRight (outer : DataFrame α) (inner : DataFrame β)
    (outerKeySelector : α → JSVal) (innerKeySelector : β → JSVal)
    (resultSelector : Option α → Option β → γ) : DataFrame γ :=
  let innerResult :=
    ((inner.except outer innerKeySelector outerKeySelector).select
      (fun i => resultSelector none (some i))).resetIndex
  let intersectionResults :=
    outer.join inner outerKeySelector innerKeySelector
      (fun o i => resultSelector (some o) (some i))
  (intersectionResults.concat innerResult).resetIndex

/-- A series' materialised content: its index/value pairs.  (`series.ts` is
outside `src`; only the pair list matters for the claims.) -/
abbrev Srs : Type := List (JSVal × JSVal)

/-- Modelled from the spec: `Series.toPairs` (from the missing `series.ts`)
"silently omit[s] entries whose value is undefined". -/
def Srs.toPairs (s : Srs) : List (JSVal × JSVal) :=
  s.filter (fun p => !(p.2 == JSVal.undef))

/-- `DataFrame.hasSeries`: scans the column names for one whose lowercased
form matches the lowercased request. -/
def hasSeriesImpl (q : String) : List String → Bool
  | [] => false
  | c :: cs => if lowerStr c == lowerStr q then true else hasSeriesImpl q cs

/-- `DataFrame.hasSeries` on the dataframe's column names. -/
def DataFrame.hasSeries (df : DataFrame α) (columnName : String) : Bool :=
  hasSeriesImpl columnName df.columnNames

/-- `DataFrame.getSeries`: reads the exactly-named field of each row,
keeping the index; a missing field reads as `undefined`. -/
def DataFrame.getSeries (df : DataFrame Row) (columnName : String) : Srs :=
  df.pairs.map (fun p => (p.1, getField p.2 columnName))

/-- `DataFrame.expectSeries`: throws (`none`) exactly when `hasSeries` is
false, otherwise returns `getSeries`. -/
def DataFrame.expectSeries (df : DataFrame Row) (columnName : String) : Option Srs :=
  if df.hasSeries columnName then some (df.getSeries columnName) else Option.none

/-- The key→value map `withSeries` builds from the incoming series' pairs
(`toMap(importSeries.toPairs(), pair => pair[0], pair => pair[1])`): a
JavaScript object keyed by the coerced-to-string index, later pairs
overwriting earlier ones, absent keys reading as `undefined`. -/
def toMapJS (ps : List (JSVal × JSVal)) : String → JSVal :=
  ps.foldl (fun m p => fun k => if k == toKeyString p.1 then p.2 else m k)
    (fun _ => JSVal.undef)

/-- The column names a dataframe lazily infers from its rows
(`ColumnNamesIterable` with `considerAllRows` false: the first row's keys). -/
def inferKeys : List Row → List String
  | [] => []
  | r :: _ => r.map (·.1)

/-- `DataFrame.withSeries(columnName, series)`.  On an empty dataframe the
source returns `importSeries.inflate(value => ({[columnName]: value}))` —
single-field rows from the series, existing column names discarded.
Otherwise each row's named field is set from the key→value map built from
the incoming series' pairs (keyed by coerced-to-string index value), and
the column list is the distinct concatenation of the old names plus the
new one. -/
def DataFrame.withSeries (df : DataFrame Row) (columnName : String) (series : Srs) :
    DataFrame Row :=
  if df.noneValues then
    let rows := series.map (fun p => (p.1, [(columnName, p.2)]))
    { pairs := rows, columnNames := inferKeys (rows.map (·.2)) }
  else
    let seriesValueMap := toMapJS series.toPairs
    { pairs := df.pairs.map (fun p =>
        (p.1, setField p.2 columnName (seriesValueMap (toKeyString p.1))))
      columnNames := makeDistinct (df.columnNames ++ [columnName]) }

/-- Bumping a counter in a JavaScript object used as a string→count map
(`columnNamesMap[lwr]` starting from `undefined`, modelled as count 0). -/
def bumpKey (m : String → Nat) (k : String) : String → Nat :=
  fun k2 => if k2 == k then m k + 1 else m k2

/-- First pass of `initColumnNames`: count the occurrences of each
lowercased column name. -/
def countPass : List String → (String → Nat) → (String → Nat)
  | [], m => m
  | x :: xs, m => countPass xs (bumpKey m (lowerStr x))

/-- Second pass of `initColumnNames`: a name whose lowercased form occurs
more than once is emitted as `name.N`, where `N` starts at 1 for the first
occurrence (`curColumnNo = 1` when `columnNoMap` has no entry) and the map
records `N + 1` for the next occurrence; other names are emitted bare. -/
def suffixPass (counts : String → Nat) :
    List String → (String → Option Nat) → List String
  | [], _ => []
  | x :: xs, noMap =>
      let k := lowerStr x
      if counts k > 1 then
        let cur := (noMap k).getD 1
        (x ++ "." ++ toString cur) ::
          suffixPass counts xs (fun k2 => if k2 == k then some (cur + 1) else noMap k2)
      else
        x :: suffixPass counts xs noMap

/-- `DataFrame.initColumnNames`: the two passes over the supplied names. -/
def initColumnNames (inputColumnNames : List String) : List String :=
  suffixPass (countPass inputColumnNames (fun _ => 0)) inputColumnNames (fun _ => Option.none)

/-- Modelled from the spec: the chunk-collecting loop of the missing
`dataframe-variable-window-iterable.ts` — "new chunk starts whenever
`comparator(prev, curr)` is false; comparator compares adjacent elements
only".  `cur` is the chunk being grown, `prev` the previous pair. -/
def variableWindowGo (comparer : α → α → Bool) :
    List (JSVal × α) → (JSVal × α) → List (JSVal × α) → List (List (JSVal × α))
  | cur, _, [] => [cur]
  | cur, prev, p :: rest =>
      if comparer prev.2 p.2 then variableWindowGo comparer (cur ++ [p]) p rest
      else cur :: variableWindowGo comparer [p] p rest

/-- Modelled from the spec: the pair chunks of a variable window. -/
def variableWindowPairs (comparer : α → α → Bool) :
    List (JSVal × α) → List (List (JSVal × α))
  | [] => []
  | p :: rest => variableWindowGo comparer [p] p rest

/-- `DataFrame.variableWindow`: each chunk becomes a dataframe reusing the
parent's column-name list. -/
def DataFrame.variableWindow (df : DataFrame α) (comparer : α → α → Bool) :
    List (DataFrame α) :=
  (variableWindowPairs comparer df.pairs).map
    (fun w => { pairs := w, columnNames := df.columnNames })

/-- `DataFrame.sequentialDistinct`: variable-window by strict equality of
the selector values, then each window is collapsed to
`[window.getIndex().first(), window.first()]` — the FIRST pair of the
window — re-indexed by the pair's first element and inflated back to a
dataframe.  (Windows are never empty, so `head?` never skips one; the
inflated frame's lazily inferred column names are not modelled.) -/
def DataFrame.sequentialDistinct (df : DataFrame α) (selector : α → JSVal) :
    DataFrame α :=
  let windows := df.variableWindow (fun a b => strictEq (selector a) (selector b))
  { pairs := windows.filterMap (fun w => w.pairs.head?)
    columnNames := [] }

/-- The behaviour claimed by the spec for `sequentialDistinct`: each
adjacent equal-run keeps its LAST pair. -/
def sequentialDistinctSpecLast (selector : α → JSVal) (df : DataFrame α) :
    DataFrame α :=
  let windows := variableWindowPairs
    (fun a b => strictEq (selector a) (selector b)) df.pairs
  { pairs := windows.filterMap (fun w => w.getLast?)
    columnNames := [] }

/-- The behaviour claimed by the spec for `groupBy`: the insertion-ordered
distinct coerced-to-string keys, each carrying the input-order sublist of
pairs with that key. -/
def groupBySpec (selector : α → JSVal) (ps : List (JSVal × α)) :
    List (String × List (JSVal × α)) :=
  (makeDistinct (ps.map (keyOf selector))).map
    (fun k => (k, ps.filter (fun p => keyOf selector p == k)))

/-- Sort direction (`Direction` of the missing `ordered-iterable.ts`). -/
inductive Direction where
  | Ascending
  | Descending
deriving DecidableEq, Repr

/-- A sort spec `(sortLevel, selector, direction)` (`ISortSpec`).  Sort
keys are numeric (`Int`); the claims under study sort by numeric fields. -/
structure SortSpec (α : Type) where
  sortLevel : Nat
  selector : α → Int
  direction : Direction

/-- Modelled from the spec: the multi-key comparison — "compared
level-by-level" in sort-spec order, a descending level reversing its
comparison, ties falling through to the next level. -/
def cmpBySpecs : List (SortSpec α) → α → α → Ordering
  | [], _, _ => .eq
  | s :: rest, a, b =>
      let o := compare (s.selector a) (s.selector b)
      let o2 := match s.direction with
        | .Ascending => o
        | .Descending => o.swap
      if o2 == Ordering.eq then cmpBySpecs rest a b else o2

/-- Stable insertion into a sorted list: the inserted (earlier) element is
placed before the first element it does not compare greater than. -/
def insertOrdered (le : α → α → Bool) (x : α) : List α → List α
  | [] => [x]
  | y :: ys => if le x y then x :: y :: ys else y :: insertOrdered le x ys

/-- Stable insertion sort: ties preserve input order. -/
def stableSortLe (le : α → α → Bool) : List α → List α
  | [] => []
  | x :: xs => insertOrdered le x (stableSortLe le xs)

/-- Modelled from the spec: the missing `OrderedIterable` — "stable
multi-key sort: full materialize, compare by sort-spec chain, ties
preserve input order". -/
def orderedIterable (specs : List (SortSpec α)) (values : List α) : List α :=
  stableSortLe (fun a b => !(cmpBySpecs specs a b == Ordering.gt)) values

/-- An `OrderedDataFrame`: its stored `parent`, `selector`, `direction` and
`origValues` fields, plus the sorted values its `OrderedIterable` content
produces.  (The source also sorts `origPairs` with pair-lifted selectors;
the pair ordering mirrors the value ordering and is not modelled
separately.) -/
inductive OrderedDataFrame (α : Type) where
  | mk (parent : Option (OrderedDataFrame α)) (selector : α → Int)
       (direction : Direction) (origValues : List α) (sortedValues : List α)

/-- The stored `origValues` of an ordered frame. -/
def OrderedDataFrame.origValues : OrderedDataFrame α → List α
  | .mk _ _ _ v _ => v

/-- The sorted values of an ordered frame's content. -/
def OrderedDataFrame.sortedValues : OrderedDataFrame α → List α
  | .mk _ _ _ _ s => s

/-- The sort specs the constructor's while loop collects from a parent
chain: the chain head's `(selector, direction)` at the given level, then
its parent at the next level, and so on. -/
def OrderedDataFrame.chainSpecs : OrderedDataFrame α → Nat → List (SortSpec α)
  | .mk p sel dir _ _, lvl =>
      ⟨lvl, sel, dir⟩ ::
        (match p with
         | Option.none => []
         | Option.some q => q.chainSpecs (lvl + 1))

/-- The `OrderedDataFrame` constructor: collects the parent chain's specs
at levels 0, 1, …, appends its own spec at the next level, and hands the
specs to the `OrderedIterable`.  The source's while loop advances its local
`parent` variable to null before `this.parent = parent` runs, so the
constructed frame always stores no parent. -/
def mkOrderedDataFrame (values : List α) (selector : α → Int)
    (direction : Direction) (parent : Option (OrderedDataFrame α)) :
    OrderedDataFrame α :=
  let parentSpecs : List (SortSpec α) :=
    match parent with
    | Option.none => []
    | Option.some p => p.chainSpecs 0
  let specs := parentSpecs ++ [⟨parentSpecs.length, selector, direction⟩]
  .mk Option.none selector direction values (orderedIterable specs values)

/-- `DataFrame.orderBy`: a fresh ordered frame with no parent, ascending. -/
def DataFrame.orderBy (df : DataFrame α) (selector : α → Int) :
    OrderedDataFrame α :=
  mkOrderedDataFrame df.values selector Direction.Ascending Option.none

/-- `OrderedDataFrame.thenBy`: a new ordered frame over the same original
values, ascending, with this frame as the parent argument. -/
def OrderedDataFrame.thenBy (odf : OrderedDataFrame α) (selector : α → Int) :
    OrderedDataFrame α :=
  mkOrderedDataFrame odf.origValues selector Direction.Ascending (Option.some odf)

/-- `OrderedDataFrame.thenByDescending`: as `thenBy`, descending. -/
def OrderedDataFrame.thenByDescending (odf : OrderedDataFrame α)
    (selector : α → Int) : OrderedDataFrame α :=
  mkOrderedDataFrame odf.origValues selector Direction.Descending (Option.some odf)

/-- The sort the spec claims for a whole `orderBy`/`thenBy` chain: the
chain's `(selector, direction)` levels in call order, level 0 (the first
`orderBy`) the highest priority. -/
def chainSortSpec (levels : List ((α → Int) × Direction)) (values : List α) :
    List α :=
  orderedIterable (levels.enum.map (fun p => ⟨p.1, p.2.1, p.2.2⟩)) values

/-- A numeric field of a row read as an `Int` sort key (0 for non-numeric
fields; the example rows are all-numeric). -/
def intField (k : String) (r : Row) : Int :=
  match getField r k with
  | .num n => n
  | _ => 0

/-- The per-key occurrence count the first pass of `initColumnNames`
computes: how often a lowercased key occurs among the lowercased names. -/
def lowerCount (xs : List String) (k : String) : Nat :=
  xs.countP (fun x => lowerStr x == k)

/-- The suffixing the amended claim describes: a name whose lowercased form
is duplicated anywhere in the input becomes `name.N` with `N` = 1 + the
number of earlier occurrences of the same lowercased form (`prior`); all
occurrences are suffixed, the first included.  Unduplicated names pass
through unchanged. -/
def suffixSpecGo (counts : String → Nat) (prior : String → Nat) :
    List String → List String
  | [] => []
  | x :: xs =>
      (if counts (lowerStr x) > 1 then x ++ "." ++ toString (prior (lowerStr x) + 1) else x)
        :: suffixSpecGo counts (bumpKey prior (lowerStr x)) xs

/-- The amended behaviour of `initColumnNames` as a direct counting
formula. -/
def initColumnNamesAmended (xs : List String) : List String :=
  suffixSpecGo (lowerCount xs) (fun _ => 0) xs

/-- Example row (a=2, b=0, c=0) for the sort-chain claim. -/
def exC1r0 : Row := [("a", .num 2), ("b", .num 0), ("c", .num 0)]

/-- Example row (a=1, b=0, c=0) for the sort-chain claim. -/
def exC1r1 : Row := [("a", .num 1), ("b", .num 0), ("c", .num 0)]

/-- Example frame for the sort-chain claim: two rows that differ only in
column `a`. -/
def exC1df : DataFrame Row := ⟨[(.num 0, exC1r0), (.num 1, exC1r1)], ["a", "b", "c"]⟩

/-- Example row (A=1, B=10) for the `sequentialDistinct` claim. -/
def exC2r0 : Row := [("A", .num 1), ("B", .num 10)]

/-- Example row (A=1, B=20) for the `sequentialDistinct` claim. -/
def exC2r1 : Row := [("A", .num 1), ("B", .num 20)]

/-- Example frame for the `sequentialDistinct` claim: one adjacent
equal-run of length two under the selector `row.A`. -/
def exC2df : DataFrame Row := ⟨[(.num 0, exC2r0), (.num 1, exC2r1)], ["A", "B"]⟩

/-- Example frame for the `first`/`last` claim: non-empty, with a `null`
final row. -/
def exC8 : DataFrame JSVal := ⟨[(.num 0, .num 7), (.num 1, .null)], []⟩

/-- Example frame for the column-lookup claim: one column `Alpha`, one row
keyed exactly `Alpha`. -/
def exC10df : DataFrame Row := ⟨[(.num 0, [("Alpha", .num 1)])], ["Alpha"]⟩

/-- Example empty-but-with-columns frame for the `withSeries` claim. -/
def exC5df : DataFrame Row := ⟨[], ["X"]⟩

/-- Example incoming series for the `withSeries` claims. -/
def exC5srs : Srs := [(.num 0, .num 1)]

/-- Example nonempty frame for the `withSeries` witness: two rows, column
`X` already present, indexes 10 and 20. -/
def exC5df2 : DataFrame Row :=
  ⟨[(.num 10, [("X", .num 1)]), (.num 20, [("X", .num 2)])], ["X"]⟩

/-- Example incoming series for the `withSeries` witness: matches index 10
only. -/
def exC5srs2 : Srs := [(.num 10, .num 99)]

/- ------------------------------------------------------------------ -/
/- Theorems.                                                           -/
/- ------------------------------------------------------------------ -/

/-- C1.  The claim says every level of an `orderBy`/`thenBy` chain of any
length participates in the comparison, the first `orderBy` with the
highest priority.  In the code, the `OrderedDataFrame` constructor stores
`this.parent` only after its while loop has advanced the local `parent`
variable to null, so every ordered frame records no parent and a chain of
three levels keeps only the last two: `orderBy(a).thenBy(b).thenBy(c)` on
rows (a=2,b=0,c=0), (a=1,b=0,c=0) sorts by (b, c) only and leaves the rows
in input order, while the claimed three-level sort orders them by `a`. -/
theorem claim1_chain_drops_levels :
    (((exC1df.orderBy (intField "a")).thenBy (intField "b")).thenBy
        (intField "c")).sortedValues = [exC1r0, exC1r1] ∧
    chainSortSpec
        [(intField "a", Direction.Ascending), (intField "b", Direction.Ascending),
         (intField "c", Direction.Ascending)] exC1df.values = [exC1r1, exC1r0] ∧
    ([exC1r0, exC1r1] : List Row) ≠ [exC1r1, exC1r0] :=
  ⟨rfl, rfl, by decide⟩

/-- C2.  The claim (and the method's own doc comment) says
`sequentialDistinct` keeps the LAST row of each adjacent equal-run; the
code collapses each window to `[window.getIndex().first(), window.first()]`
and therefore keeps the FIRST row: on the run (A=1,B=10), (A=1,B=20) with
selector `row.A` the code keeps index 0 with the first row, while the
claimed behaviour keeps index 1 with the last row. -/
theorem claim2_keeps_first_of_run :
    (exC2df.sequentialDistinct (fun r => getField r "A")).pairs
        = [(JSVal.num 0, exC2r0)] ∧
    (sequentialDistinctSpecLast (fun r => getField r "A") exC2df).pairs
        = [(JSVal.num 1, exC2r1)] ∧
    ([(JSVal.num 0, exC2r0)] : List (JSVal × Row)) ≠ [(JSVal.num 1, exC2r1)] :=
  ⟨rfl, rfl, by decide⟩

/-- C6 counterexample.  The claim says the first occurrence of a duplicated
column name keeps the bare name (`name, name.1, …`); in the code both
occurrences of a duplicated name are suffixed: `["A", "A"]` initialises to
`["A.1", "A.2"]`, not `["A", "A.1"]`. -/
theorem claim6_counterexample :
    initColumnNames ["A", "A"] = ["A.1", "A.2"] ∧
    initColumnNames ["A", "A"] ≠ ["A", "A.1"] := by
  constructor
  · rfl
  · intro h
    exact absurd h (by decide)

/-- C8 counterexample.  The claim says that whenever `any()` is true,
`last()` returns the final row without failing; on a non-empty frame whose
final row is `null`, `any()` is true but `last()` hits its `null` sentinel
and throws. -/
theorem claim8_counterexample :
    exC8.any = true ∧ exC8.last = Option.none := by
  exact ⟨rfl, rfl⟩

/-- Folding `(fun _ v => v)` over a list keeps the last element (or the
initial accumulator when the list is empty). -/
theorem foldl_keep_last (vs : List JSVal) (init : JSVal) :
    vs.foldl (fun _ v => v) init = (vs.getLast?).getD init := by
  induction vs generalizing init with
  | nil => rfl
  | cons v vs ih =>
      rw [List.foldl_cons, ih]
      cases vs with
      | nil => rfl
      | cons w ws =>
          rw [List.getLast?_cons_cons]
          cases hz : (w :: ws).getLast? with
          | none => exact absurd hz (by simp)
          | some z => rfl

/-- C8, amended.  `first()` and `last()` on an empty dataframe throw rather
than returning a sentinel, and when `any()` is true `first()` returns the
first row; but `last()` returns the final row only when that row is not
`null` — because `null` is `last()`'s internal empty-sentinel, a dataframe
whose final row is `null` also throws. -/
theorem claim8_last_null_sentinel (df : DataFrame JSVal) :
    df.first = df.values.head? ∧
    df.last = (df.values.getLast?).bind
      (fun v => if v = JSVal.null then Option.none else Option.some v) := by
  constructor
  · cases h : df.values <;> simp [DataFrame.first, firstImpl, h]
  · rw [DataFrame.last, lastImpl]
    simp only [foldl_keep_last]
    cases h : df.values.getLast? with
    | none => simp [strictEq]
    | some w => cases w <;> simp [strictEq]

/-- `toArray`'s push loop is the strict-inequality filter. -/
theorem toArrayImpl_eq_filter (vs : List JSVal) :
    toArrayImpl vs = vs.filter (fun v => !(strictEq v JSVal.undef)) := by
  induction vs with
  | nil => rfl
  | cons v vs ih =>
      rw [toArrayImpl, List.filter_cons]
      cases h : !(strictEq v JSVal.undef) <;> simp [h, ih]

/-- `toPairs`'s push loop is the loose-inequality filter. -/
theorem toPairsImpl_eq_filter (ps : List (JSVal × JSVal)) :
    toPairsImpl ps = ps.filter (fun p => !(looseEqUndef p.2)) := by
  induction ps with
  | nil => rfl
  | cons p ps ih =>
      rw [toPairsImpl, List.filter_cons]
      cases h : !(looseEqUndef p.2) <;> simp [h, ih]

/-- `toArray` keeps exactly one more entry than `toPairs` for every `null`
value: counting lemma over the pair list. -/
theorem toArray_toPairs_length (ps : List (JSVal × JSVal)) :
    (toArrayImpl (ps.map (·.2))).length
      = (toPairsImpl ps).length + (ps.map (·.2)).count JSVal.null := by
  induction ps with
  | nil => rfl
  | cons p ps ih =>
      rcases p with ⟨i, v⟩
      cases v <;>
        simp [toArrayImpl, toPairsImpl, strictEq, looseEqUndef,
          List.count_cons, ih] <;>
        omega

/-- C9.  `toArray()` omits exactly the rows whose value is strictly
(`!==`) `undefined`, keeping `null`-valued rows, while `toPairs()` filters
with a loose inequality (`!=`) and so drops `null`-valued pairs as well;
hence `toArray()` has exactly one more entry than `toPairs()` for every
`null`-valued row — strictly more whenever one exists. -/
theorem claim9_toArray_vs_toPairs (df : DataFrame JSVal) :
    df.toArray = df.values.filter (fun v => !(strictEq v JSVal.undef)) ∧
    df.toPairs = df.pairs.filter (fun p => !(looseEqUndef p.2)) ∧
    df.toArray.length = df.toPairs.length + df.values.count JSVal.null :=
  ⟨toArrayImpl_eq_filter df.values, toPairsImpl_eq_filter df.pairs,
    toArray_toPairs_length df.pairs⟩

/-- C7.  `except` keeps only outer rows with no strictly-equal key match in
the inner frame; `intersection` keeps only rows with such a match.  The two
tests are the same filter negated, so composing them leaves nothing, for
any frames and key selectors (the claim's default selectors are the
identity instance). -/
theorem claim7_except_intersection_empty {α β : Type} (A : DataFrame α)
    (B : DataFrame β) (outerSelector : α → JSVal) (innerSelector : β → JSVal) :
    ((A.except B outerSelector innerSelector).intersection B outerSelector
        innerSelector).pairs = [] := by
  simp only [DataFrame.intersection, DataFrame.except, DataFrame.wherePred,
    DataFrame.any, DataFrame.noneValues, DataFrame.values]
  rw [List.filter_filter]
  simp

/-- `hasSeries`'s scan is the case-insensitive `any` over the column
names. -/
theorem hasSeriesImpl_eq_any (q : String) (names : List String) :
    hasSeriesImpl q names = names.any (fun c => lowerStr c == lowerStr q) := by
  induction names with
  | nil => rfl
  | cons c cs ih =>
      rw [hasSeriesImpl]
      cases h : (lowerStr c == lowerStr q) <;> simp [h, ih]

/-- C10.  `hasSeries` matches column names case-insensitively and
`expectSeries` throws exactly when `hasSeries` is false; but `getSeries`
reads the exactly-named field of each row, so when the requested name is
absent from every row (as for a name differing only in case from a real
column), the returned series is `undefined` at every position even though
`expectSeries` succeeds. -/
theorem claim10_case_insensitive_lookup (df : DataFrame Row) (q : String)
    (habs : df.values.all (fun r => getField r q == JSVal.undef) = true) :
    (df.expectSeries q).isSome = df.hasSeries q ∧
    df.hasSeries q = df.columnNames.any (fun c => lowerStr c == lowerStr q) ∧
    List.all (df.getSeries q) (fun p => p.2 == JSVal.undef) = true := by
  refine ⟨?_, hasSeriesImpl_eq_any q df.columnNames, ?_⟩
  · cases h : df.hasSeries q <;> simp [DataFrame.expectSeries, h]
  · simp only [DataFrame.getSeries, List.all_eq_true] at habs ⊢
    intro p hp
    rcases List.mem_map.mp hp with ⟨q2, hq2, rfl⟩
    exact habs _ (List.mem_map_of_mem _ hq2)

/-- C10 witness: a frame with column `Alpha` queried as `alpha` —
`hasSeries` is true, `expectSeries` succeeds, the series is all
`undefined`. -/
theorem claim10_witness :
    exC10df.hasSeries "alpha" = true ∧
    ((exC10df.expectSeries "alpha").isSome = exC10df.hasSeries "alpha" ∧
     exC10df.hasSeries "alpha"
        = exC10df.columnNames.any (fun c => lowerStr c == lowerStr "alpha") ∧
     List.all (exC10df.getSeries "alpha") (fun p => p.2 == JSVal.undef) = true) :=
  ⟨rfl, claim10_case_insensitive_lookup exC10df "alpha" (by decide)⟩

/-- Membership in the worker's output: the elements of the input that are
not already among the seen elements. -/
theorem mem_makeDistinctAux {a : String} : ∀ (xs seen : List String),
    a ∈ makeDistinctAux seen xs ↔ a ∈ xs ∧ a ∉ seen := by
  intro xs
  induction xs with
  | nil => intro seen; simp [makeDistinctAux]
  | cons x xs ih =>
      intro seen
      rw [makeDistinctAux]
      by_cases hx : seen.contains x = true
      · have hxs : x ∈ seen := by simpa using hx
        rw [if_pos hx, ih]
        constructor
        · rintro ⟨h1, h2⟩
          exact ⟨List.mem_cons_of_mem _ h1, h2⟩
        · rintro ⟨h1, h2⟩
          rcases List.mem_cons.mp h1 with rfl | h1
          · exact absurd hxs h2
          · exact ⟨h1, h2⟩
      · have hxs : x ∉ seen := by simpa using hx
        rw [if_neg hx]
        simp only [List.mem_cons, ih, List.mem_cons]
        constructor
        · rintro (rfl | ⟨h1, h2⟩)
          · exact ⟨Or.inl rfl, hxs⟩
          · refine ⟨Or.inr h1, fun hs => h2 (Or.inr hs)⟩
        · rintro ⟨rfl | h1, h2⟩
          · exact Or.inl rfl
          · by_cases hax : a = x
            · exact Or.inl hax
            · exact Or.inr ⟨h1, fun hs => by
                rcases hs with hs | hs
                · exact hax hs
                · exact h2 hs⟩

/-- Membership is invariant under `makeDistinct`. -/
theorem mem_makeDistinct {a : String} (xs : List String) :
    a ∈ makeDistinct xs ↔ a ∈ xs := by
  rw [makeDistinct, mem_makeDistinctAux]
  simp

/-- The worker produces no duplicates. -/
theorem makeDistinctAux_nodup : ∀ (xs seen : List String),
    (makeDistinctAux seen xs).Nodup := by
  intro xs
  induction xs with
  | nil => intro seen; simp [makeDistinctAux]
  | cons x xs ih =>
      intro seen
      rw [makeDistinctAux]
      by_cases hx : seen.contains x = true
      · rw [if_pos hx]; exact ih seen
      · rw [if_neg hx]
        refine List.nodup_cons.mpr ⟨?_, ih (x :: seen)⟩
        intro hmem
        exact ((mem_makeDistinctAux _ _).mp hmem).2 (List.mem_cons_self _ _)

/-- `makeDistinct` produces no duplicates. -/
theorem makeDistinct_nodup (xs : List String) : (makeDistinct xs).Nodup :=
  makeDistinctAux_nodup xs []

/-- Appending an element already present (in the input or among the seen
elements) leaves the worker's output unchanged. -/
theorem makeDistinctAux_append_mem : ∀ (xs seen : List String) (k : String),
    k ∈ seen ∨ k ∈ xs →
    makeDistinctAux seen (xs ++ [k]) = makeDistinctAux seen xs := by
  intro xs
  induction xs with
  | nil =>
      intro seen k hk
      rcases hk with hk | hk
      · simp [makeDistinctAux, hk]
      · simp at hk
  | cons x xs ih =>
      intro seen k hk
      rw [List.cons_append, makeDistinctAux, makeDistinctAux]
      by_cases hx : seen.contains x = true
      · rw [if_pos hx, if_pos hx]
        refine ih seen k ?_
        rcases hk with hk | hk
        · exact Or.inl hk
        · rcases List.mem_cons.mp hk with rfl | hk
          · exact Or.inl (by simpa using hx)
          · exact Or.inr hk
      · rw [if_neg hx, if_neg hx]
        congr 1
        refine ih (x :: seen) k ?_
        rcases hk with hk | hk
        · exact Or.inl (List.mem_cons_of_mem _ hk)
        · rcases List.mem_cons.mp hk with rfl | hk
          · exact Or.inl (List.mem_cons_self _ _)
          · exact Or.inr hk

/-- Appending an already-present name leaves `makeDistinct` unchanged. -/
theorem makeDistinct_append_mem (xs : List String) (k : String) (h : k ∈ xs) :
    makeDistinct (xs ++ [k]) = makeDistinct xs :=
  makeDistinctAux_append_mem xs [] k (Or.inr h)

/-- Appending a fresh element appends it to the worker's output. -/
theorem makeDistinctAux_append_not_mem : ∀ (xs seen : List String) (k : String),
    k ∉ seen → k ∉ xs →
    makeDistinctAux seen (xs ++ [k]) = makeDistinctAux seen xs ++ [k] := by
  intro xs
  induction xs with
  | nil =>
      intro seen k hk _
      simp [makeDistinctAux, hk]
  | cons x xs ih =>
      intro seen k hk hk2
      have hkx : k ≠ x := fun h => hk2 (h ▸ List.mem_cons_self x xs)
      have hk3 : k ∉ xs := fun h => hk2 (List.mem_cons_of_mem x h)
      rw [List.cons_append, makeDistinctAux, makeDistinctAux]
      by_cases hx : seen.contains x = true
      · rw [if_pos hx, if_pos hx]
        exact ih seen k hk hk3
      · rw [if_neg hx, if_neg hx, List.cons_append]
        congr 1
        refine ih (x :: seen) k ?_ hk3
        intro hmem
        rcases List.mem_cons.mp hmem with h | h
        · exact hkx h
        · exact hk h

/-- Appending a fresh name appends it to `makeDistinct`'s output. -/
theorem makeDistinct_append_not_mem (xs : List String) (k : String) (h : k ∉ xs) :
    makeDistinct (xs ++ [k]) = makeDistinct xs ++ [k] :=
  makeDistinctAux_append_not_mem xs [] k (by simp) h

/-- Setting a row field then reading it back gives the written value. -/
theorem getField_setField (r : Row) (k : String) (v : JSVal) :
    getField (setField r k v) k = v := by
  induction r with
  | nil => simp [setField, getField]
  | cons kv rest ih =>
      rcases kv with ⟨k2, v2⟩
      by_cases h : k2 = k
      · subst h
        simp [setField, getField]
      · have hb : (k2 == k) = false := by simpa using h
        simp [setField, getField, hb, ih]

/-- C5 counterexample.  The claim says `withSeries` always produces the
distinct concatenation of the existing column names plus the new name; on
an empty dataframe the source instead returns the incoming series inflated
to single-field rows, discarding the existing column names: an empty frame
with column `X` gains series `Y` and ends with columns `["Y"]`, not
`["X", "Y"]`. -/
theorem claim5_counterexample :
    (exC5df.withSeries "Y" exC5srs).columnNames = ["Y"] ∧
    (exC5df.withSeries "Y" exC5srs).columnNames
      ≠ makeDistinct (exC5df.columnNames ++ ["Y"]) :=
  ⟨rfl, by decide⟩

/-- C5, amended.  On a NON-empty dataframe, `withSeries` aligns the
incoming series by index value through the key→value map built from the
series' pairs (absent keys reading `undefined`), and the new column list is
the distinct concatenation of the existing names plus the new name, so
re-adding an existing name neither duplicates nor repositions it; an empty
dataframe instead returns the inflated series (see the counterexample). -/
theorem claim5_withSeries_alignment (df : DataFrame Row) (name : String)
    (s : Srs) (h : df.noneValues = false) :
    (df.withSeries name s).columnNames = makeDistinct (df.columnNames ++ [name]) ∧
    (df.withSeries name s).getSeries name
      = df.pairs.map (fun p => (p.1, toMapJS (Srs.toPairs s) (toKeyString p.1))) ∧
    (df.columnNames.contains name = true →
      (df.withSeries name s).columnNames = makeDistinct df.columnNames) := by
  have hcond : ¬ (df.noneValues = true) := by simp [h]
  rw [DataFrame.withSeries, if_neg hcond]
  refine ⟨rfl, ?_, ?_⟩
  · rw [DataFrame.getSeries]
    simp only [List.map_map]
    refine List.map_congr_left ?_
    intro p _
    simp [Function.comp, getField_setField]
  · intro hmem
    exact makeDistinct_append_mem _ _ (by simpa using hmem)

/-- C5 witness: a two-row frame (indexes 10, 20) with existing column `X`,
re-adding `X` from a series matching index 10 only: the column list stays
`["X"]`, row 10 reads 99 and row 20 reads `undefined`. -/
theorem claim5_withSeries_witness :
    (exC5df2.withSeries "X" exC5srs2).columnNames
        = makeDistinct (exC5df2.columnNames ++ ["X"]) ∧
    (exC5df2.withSeries "X" exC5srs2).getSeries "X"
        = exC5df2.pairs.map
            (fun p => (p.1, toMapJS (Srs.toPairs exC5srs2) (toKeyString p.1))) ∧
    (exC5df2.withSeries "X" exC5srs2).columnNames = makeDistinct exC5df2.columnNames := by
  have h := claim5_withSeries_alignment exC5df2 "X" exC5srs2 (by decide)
  exact ⟨h.1, h.2.1, h.2.2 (by decide)⟩

/-- The first pass of `initColumnNames` computes the lowercased occurrence
counts. -/
theorem countPass_spec : ∀ (xs : List String) (m : String → Nat) (k : String),
    countPass xs m k = m k + xs.countP (fun x => lowerStr x == k) := by
  intro xs
  induction xs with
  | nil => intro m k; simp [countPass]
  | cons x xs ih =>
      intro m k
      rw [countPass, ih, List.countP_cons]
      by_cases h : k = lowerStr x
      · subst h
        have h2 : (lowerStr x == lowerStr x) = true := by simp
        simp [bumpKey, h2]
        omega
      · have h1 : (k == lowerStr x) = false := by simpa using h
        have h2 : (lowerStr x == k) = false := by
          simpa using (Ne.symm h)
        simp [bumpKey, h1, h2]

/-- The second pass of `initColumnNames` equals the counting formula: the
stateful `columnNoMap` is `1 +` the number of already-processed occurrences
of each duplicated lowercased name. -/
theorem suffixPass_spec (counts : String → Nat) :
    ∀ (ys : List String) (noMap : String → Option Nat) (prior : String → Nat),
    (∀ k, counts k > 1 → (noMap k).getD 1 = prior k + 1) →
    suffixPass counts ys noMap = suffixSpecGo counts prior ys := by
  intro ys
  induction ys with
  | nil => intro noMap prior hinv; rfl
  | cons x xs ih =>
      intro noMap prior hinv
      simp only [suffixPass, suffixSpecGo]
      by_cases hc : counts (lowerStr x) > 1
      · rw [if_pos hc, if_pos hc, hinv _ hc]
        congr 1
        apply ih
        intro k hk
        by_cases hkx : k = lowerStr x
        · subst hkx
          simp [bumpKey, hinv _ hk]
        · have h1 : (k == lowerStr x) = false := by simpa using hkx
          simp [bumpKey, h1, hinv _ hk]
      · rw [if_neg hc, if_neg hc]
        congr 1
        apply ih
        intro k hk
        by_cases hkx : k = lowerStr x
        · exact absurd (hkx ▸ hk) hc
        · have h1 : (k == lowerStr x) = false := by simpa using hkx
          simp [bumpKey, h1, hinv _ hk]

/-- C6, amended.  At construction, a column name whose lowercased form is
duplicated anywhere in the supplied list — the FIRST occurrence included —
is emitted as `name.N`, where `N` is one more than the number of earlier
occurrences of the same lowercased name (so duplicates become `name.1`,
`name.2`, …); names that are unique case-insensitively are kept bare. -/
theorem claim6_initColumnNames_suffixing (xs : List String) :
    initColumnNames xs = initColumnNamesAmended xs := by
  rw [initColumnNames, initColumnNamesAmended]
  have hcount : countPass xs (fun _ => 0) = lowerCount xs := by
    funext k
    rw [countPass_spec]
    simp [lowerCount]
  rw [hcount]
  apply suffixPass_spec
  intro k _
  simp

/-- Mapping first components over a key-tagged map is the identity on the
keys. -/
theorem map_fst_map_pair (f : String → β) : ∀ K : List String,
    (K.map (fun k => (k, f k))).map (·.1) = K := by
  intro K
  induction K with
  | nil => rfl
  | cons k K ih => simp [ih]

/-- The keys of the insertion-ordered reference grouping are the distinct
keys in first-appearance order. -/
theorem groupBySpec_keys (sel : α → JSVal) (ps : List (JSVal × α)) :
    (groupBySpec sel ps).map (·.1) = makeDistinct (ps.map (keyOf sel)) := by
  rw [groupBySpec]
  exact map_fst_map_pair _ _

/-- Filtering a one-longer list by key: the appended pair lands in its own
key's group only. -/
theorem filter_append_single (sel : α → JSVal) (ps : List (JSVal × α))
    (p : JSVal × α) (k : String) :
    (ps ++ [p]).filter (fun q => keyOf sel q == k)
      = ps.filter (fun q => keyOf sel q == k)
        ++ (if keyOf sel p = k then [p] else []) := by
  rw [List.filter_append]
  congr 1
  by_cases h : keyOf sel p = k
  · have hb : (keyOf sel p == k) = true := by simpa using h
    simp [List.filter, hb, h]
  · have hb : (keyOf sel p == k) = false := by simpa using h
    simp [List.filter, hb, h]

/-- Appending a pair to the unique group with its key, over a map-formed
group list with duplicate-free keys. -/
theorem addToGroup_map (kp : String) (p : JSVal × α)
    (f : String → List (JSVal × α)) :
    ∀ K : List String, K.Nodup → kp ∈ K →
    addToGroup kp p (K.map (fun k => (k, f k)))
      = K.map (fun k => (k, f k ++ (if kp = k then [p] else []))) := by
  intro K
  induction K with
  | nil => intro _ h; simp at h
  | cons k K ih =>
      intro hnd hmem
      rw [List.map_cons, List.map_cons, addToGroup]
      by_cases hk : k = kp
      · subst hk
        rw [if_pos (by simp)]
        congr 1
        · simp
        · apply List.map_congr_left
          intro k2 hk2
          have hne : k ≠ k2 := fun h => (List.nodup_cons.mp hnd).1 (h ▸ hk2)
          simp [hne]
      · rw [if_neg (by simpa using hk)]
        have hmem2 : kp ∈ K := by
          rcases List.mem_cons.mp hmem with h | h
          · exact absurd h.symm hk
          · exact h
        rw [ih (List.nodup_cons.mp hnd).2 hmem2]
        have hne : kp ≠ k := fun h => hk h.symm
        simp [hne]

/-- Extending the processed pairs by one pair whose key has already been
seen appends the pair to its existing group. -/
theorem groupBySpec_snoc_mem (sel : α → JSVal) (ps : List (JSVal × α))
    (p : JSVal × α) (hmem : keyOf sel p ∈ ps.map (keyOf sel)) :
    groupBySpec sel (ps ++ [p])
      = addToGroup (keyOf sel p) p (groupBySpec sel ps) := by
  rw [groupBySpec, groupBySpec, List.map_append, List.map_singleton,
    makeDistinct_append_mem _ _ hmem,
    addToGroup_map (keyOf sel p) p _ _ (makeDistinct_nodup _)
      ((mem_makeDistinct _).mpr hmem)]
  apply List.map_congr_left
  intro k _
  rw [filter_append_single]

/-- Extending the processed pairs by one pair with a fresh key opens a new
group at the end of the list. -/
theorem groupBySpec_snoc_not_mem (sel : α → JSVal) (ps : List (JSVal × α))
    (p : JSVal × α) (hmem : keyOf sel p ∉ ps.map (keyOf sel)) :
    groupBySpec sel (ps ++ [p])
      = groupBySpec sel ps ++ [(keyOf sel p, [p])] := by
  rw [groupBySpec, groupBySpec, List.map_append, List.map_singleton,
    makeDistinct_append_not_mem _ _ hmem, List.map_append]
  congr 1
  · apply List.map_congr_left
    intro k hk
    have hkne : keyOf sel p ≠ k := fun h =>
      hmem (h ▸ (mem_makeDistinct _).mp hk)
    rw [filter_append_single]
    simp [hkne]
  · rw [List.map_singleton, filter_append_single]
    have hnil : ps.filter (fun q => keyOf sel q == keyOf sel p) = [] := by
      refine List.filter_eq_nil_iff.mpr ?_
      intro q hq
      intro hbeq
      exact hmem (by
        have : keyOf sel q = keyOf sel p := by simpa using hbeq
        exact this ▸ List.mem_map_of_mem (keyOf sel) hq)
    simp [hnil]

/-- The single pass of `groupBy`, started from the grouping of already
processed pairs, lands at the grouping of all the pairs. -/
theorem groupByAux_spec (sel : α → JSVal) :
    ∀ (rest done : List (JSVal × α)),
    groupByAux sel rest (groupBySpec sel done) = groupBySpec sel (done ++ rest) := by
  intro rest
  induction rest with
  | nil => intro done; rw [groupByAux, List.append_nil]
  | cons p rest ih =>
      intro done
      simp only [groupByAux]
      by_cases hmem : keyOf sel p ∈ done.map (keyOf sel)
      · have hcont : ((groupBySpec sel done).map (·.1)).contains (keyOf sel p) = true := by
          rw [groupBySpec_keys]
          simpa using (mem_makeDistinct _).mpr hmem
        rw [if_pos hcont, ← groupBySpec_snoc_mem sel done p hmem,
          ih (done ++ [p]), List.append_assoc, List.singleton_append]
      · have hcont : ((groupBySpec sel done).map (·.1)).contains (keyOf sel p) = false := by
          rw [groupBySpec_keys]
          simpa using fun hmem2 => hmem ((mem_makeDistinct _).mp hmem2)
        rw [if_neg (by rw [hcont]; exact Bool.false_ne_true),
          ← groupBySpec_snoc_not_mem sel done p hmem,
          ih (done ++ [p]), List.append_assoc, List.singleton_append]

/-- C3.  `groupBy` makes one pass over the pairs and equals the reference
grouping: groups keyed by the selector output coerced to a string map key
(so distinct outputs coercing to the same string collide — e.g. numeric 1
and string "1" land in one group), listed in first-appearance order of the
keys, each holding the input-order pairs with that key; the example
conjunct shows the 1/"1" collision concretely. -/
theorem claim3_groupBy_insertion_order (df : DataFrame α) (sel : α → JSVal) :
    df.groupBy sel
      = (groupBySpec sel df.pairs).map
          (fun g => { pairs := g.2, columnNames := [] }) ∧
    (DataFrame.groupBy ⟨[(JSVal.num 0, JSVal.num 1), (JSVal.num 1, JSVal.str "1")], []⟩
        (fun v => v)).map DataFrame.pairs
      = [[(JSVal.num 0, JSVal.num 1), (JSVal.num 1, JSVal.str "1")]] := by
  constructor
  · rw [DataFrame.groupBy, groupByPairs]
    have h := groupByAux_spec sel df.pairs []
    rw [List.nil_append] at h
    have h0 : groupBySpec sel ([] : List (JSVal × α)) = [] := rfl
    rw [h0] at h
    rw [h]
  · rfl

/-- Dropping the fresh count index recovers the values. -/
theorem zipCount_map_snd (xs : List α) : (zipCount xs).map (·.2) = xs := by
  rw [zipCount, List.map_map]
  show List.map (fun p => p.2) xs.enum = xs
  exact List.enum_map_snd xs

/-- `where` filters the values. -/
theorem wherePred_values (df : DataFrame α) (p : α → Bool) :
    (df.wherePred p).values = df.values.filter p := by
  rw [DataFrame.wherePred, DataFrame.values, DataFrame.values]
  simp only [List.filter_map]
  rfl

/-- `select` maps the values. -/
theorem select_values (df : DataFrame α) (f : α → β) :
    (df.select f).values = df.values.map f := by
  rw [DataFrame.select, DataFrame.values, DataFrame.values, List.map_map,
    List.map_map]
  rfl

/-- `resetIndex` keeps the values. -/
theorem resetIndex_values (df : DataFrame α) :
    (df.resetIndex).values = df.values := by
  rw [DataFrame.resetIndex, DataFrame.values]
  exact zipCount_map_snd _

/-- `concat` concatenates the values. -/
theorem concat_values (a b : DataFrame α) :
    (a.concat b).values = a.values ++ b.values := by
  rw [DataFrame.concat, DataFrame.values, DataFrame.values, DataFrame.values,
    List.map_append]

/-- `except` keeps the outer values with no strictly-equal key match in the
inner values. -/
theorem except_values (outer : DataFrame α) (inner : DataFrame β)
    (oSel : α → JSVal) (iSel : β → JSVal) :
    (outer.except inner oSel iSel).values
      = outer.values.filter (fun o =>
          (inner.values.filter (fun i => strictEq (oSel o) (iSel i))).isEmpty) := by
  rw [DataFrame.except, wherePred_values]
  congr 1
  funext o
  rw [DataFrame.noneValues, wherePred_values]

/-- C4.  `joinOuter` emits, under a fresh zero-based index: the outer rows
with no strictly-equal key match in the inner (each mapped with `null` as
the inner side), then the inner-join matches in outer-iteration order, then
the inner rows with no key match in the outer (mapped with `null` as the
outer side); `joinOuterLeft` omits the inner-only segment and
`joinOuterRight` omits the outer-only segment. -/
theorem claim4_joinOuter_segments {α β γ : Type} (outer : DataFrame α)
    (inner : DataFrame β) (oSel : α → JSVal) (iSel : β → JSVal)
    (res : Option α → Option β → γ) :
    (outer.joinOuter inner oSel iSel res).pairs
      = zipCount
          (((outer.values.filter (fun o =>
              (inner.values.filter (fun i => strictEq (oSel o) (iSel i))).isEmpty)).map
              (fun o => res (Option.some o) Option.none))
            ++ (outer.join inner oSel iSel
                  (fun o i => res (Option.some o) (Option.some i))).values
            ++ ((inner.values.filter (fun i =>
                  (outer.values.filter (fun o => strictEq (iSel i) (oSel o))).isEmpty)).map
                (fun i => res Option.none (Option.some i)))) ∧
    (outer.joinOuterLeft inner oSel iSel res).pairs
      = zipCount
          (((outer.values.filter (fun o =>
              (inner.values.filter (fun i => strictEq (oSel o) (iSel i))).isEmpty)).map
              (fun o => res (Option.some o) Option.none))
            ++ (outer.join inner oSel iSel
                  (fun o i => res (Option.some o) (Option.some i))).values) ∧
    (outer.joinOuterRight inner oSel iSel res).pairs
      = zipCount
          ((outer.join inner oSel iSel
              (fun o i => res (Option.some o) (Option.some i))).values
            ++ ((inner.values.filter (fun i =>
                  (outer.values.filter (fun o => strictEq (iSel i) (oSel o))).isEmpty)).map
                (fun i => res Option.none (Option.some i)))) := by
  refine ⟨?_, ?_, ?_⟩
  · simp only [DataFrame.joinOuter]
    rw [DataFrame.resetIndex]
    rw [concat_values, concat_values, resetIndex_values, resetIndex_values,
      select_values, select_values, except_values, except_values]
  · simp only [DataFrame.joinOuterLeft]
    rw [DataFrame.resetIndex]
    rw [concat_values, resetIndex_values, select_values, except_values]
  · simp only [DataFrame.joinOuterRight]
    rw [DataFrame.resetIndex]
    rw [concat_values, resetIndex_values, select_values, except_values]

end DataForge
